import Mathlib

/-!
Verification development for the gitticketstat aggregation core
(`src/index.js`): the ticket extractor (global regex matching over commit
messages) and the aggregation engine (`analyzeCommits` / `commitReducer`).

The JavaScript pattern argument is a regular expression applied with the
global flag.  We embed the fragment of regular expressions the repository
uses (single characters, one-or-more repetitions of a character class, and
concatenation), which covers the default pattern `[A-Z]+-\d+` and the
custom pattern `TICKET-\d+` from the specification.  Matching is greedy
with backtracking, and global extraction collects successive leftmost
matches, resuming after each match, exactly as `String.prototype.match`
with a `g`-flagged regex does.
-/

/-- Regular-expression fragment used by gitticketstat: a literal character,
a one-or-more greedy repetition of a character class, and concatenation. -/
inductive Regex where
  | lit : Char → Regex
  | plus : (Char → Bool) → Regex
  | cat : Regex → Regex → Regex

/-- Greedy continuation for `Regex.plus` after the first mandatory
character: consume further class characters as long as possible, and on
failure of the continuation backtrack one character at a time. -/
def plusMore (p : Char → Bool) (k : List Char → Option (List Char)) :
    List Char → Option (List Char)
  | [] => k []
  | x :: rest =>
    if p x then
      match plusMore p k rest with
      | some r => some r
      | none => k (x :: rest)
    else k (x :: rest)

/-- Backtracking matcher: `matchM r s k` tries to match `r` against a
prefix of `s` (greedy, leftmost-biased) and passes the remaining suffix to
the continuation `k`; the first success in preference order is returned. -/
def matchM : Regex → List Char → (List Char → Option (List Char)) → Option (List Char)
  | .lit c, s, k =>
    match s with
    | [] => none
    | x :: rest => if x = c then k rest else none
  | .plus p, s, k =>
    match s with
    | [] => none
    | x :: rest => if p x then plusMore p k rest else none
  | .cat r1 r2, s, k => matchM r1 s (fun s2 => matchM r2 s2 k)

/-- Global matching worker: at each position try a match; on success emit
the matched characters and resume after them, otherwise advance one
character.  `fuel` bounds the number of steps; `s.length + 1` is enough
because every match of this regex fragment consumes at least one
character. -/
def matchAllAux (r : Regex) : Nat → List Char → List (List Char)
  | 0, _ => []
  | Nat.succ fuel, s =>
    match matchM r s (fun rest => some rest) with
    | some rest => s.take (s.length - rest.length) :: matchAllAux r fuel rest
    | none =>
      match s with
      | [] => []
      | _ :: t => matchAllAux r fuel t

/-- All non-overlapping matches of `r` in `s`, left to right, as produced
by a JavaScript global regex match. -/
def matchAll (r : Regex) (s : List Char) : List (List Char) :=
  matchAllAux r (s.length + 1) s

/-- Ticket extraction, embedding `commit.message.match(ticketRegExp) || []`
from `commitReducer` (src/index.js line 39): every match of the pattern in
the message, in left-to-right order, duplicates preserved; the empty list
when there is no match. -/
def extractTickets (r : Regex) (message : String) : List String :=
  (matchAll r message.data).map (fun cs => ⟨cs⟩)

/-- Embedding of the default ticket pattern `'[A-Z]+-\d+'`
(src/index.js line 13): one or more uppercase letters, a hyphen, one or
more digits. -/
def defaultTicketPattern : Regex :=
  .cat (.plus Char.isUpper) (.cat (.lit '-') (.plus Char.isDigit))

/-- Concatenation of literal characters, used to embed concrete patterns
such as the specification's custom pattern `TICKET-\d+`. -/
def litSeq (c : Char) : List Char → Regex
  | [] => .lit c
  | d :: rest => .cat (.lit c) (litSeq d rest)

/-- Embedding of the specification's custom pattern `TICKET-\d+`: the
literal characters `TICKET-` followed by one or more digits. -/
def customTicketPattern : Regex :=
  .cat (litSeq 'T' ['I', 'C', 'K', 'E', 'T', '-']) (.plus Char.isDigit)

/-- Per-file diff stats of one commit, as produced by the external numstat
parser and consumed by `statReducer` (src/index.js lines 28–31). -/
structure FileStat where
  added : Int
  deleted : Int
deriving DecidableEq

/-- One parsed commit: its message and the per-file stats (`commit.message`
and `commit.stat` in src/index.js). -/
structure Commit where
  message : String
  stat : List FileStat
deriving DecidableEq

/-- Per-commit summed diff stats.  The source's initial reduce accumulator
`{added: 0, deleted: 0, total: 0}` carries a `total` field that
`statReducer` never returns nor reads, so the short stat is just the two
sums. -/
structure ShortStat where
  added : Int
  deleted : Int
deriving DecidableEq

/-- Embedding of `statReducer` (src/index.js lines 28–31). -/
def statReducer (acc : ShortStat) (stat : FileStat) : ShortStat :=
  { added := stat.added + acc.added, deleted := stat.deleted + acc.deleted }

/-- Embedding of `commit.stat.reduce(statReducer, {added: 0, deleted: 0, total: 0})`
(src/index.js lines 33–37). -/
def shortStatOf (c : Commit) : ShortStat :=
  c.stat.foldl statReducer { added := 0, deleted := 0 }

/-- One per-ticket output record (src/index.js lines 58–64). -/
structure TicketStat where
  ticket : String
  added : Int
  deleted : Int
  total : Int
  commits : Int
deriving DecidableEq

/-- Update applied to an existing ticket entry on a repeated sighting
(src/index.js lines 53–56). -/
def bump (e : TicketStat) (s : ShortStat) : TicketStat :=
  { e with
    added := e.added + s.added
    deleted := e.deleted + s.deleted
    total := e.total + (s.added + s.deleted)
    commits := e.commits + 1 }

/-- Entry created on the first sighting of a ticket (src/index.js
lines 58–64). -/
def freshStat (t : String) (s : ShortStat) : TicketStat :=
  { ticket := t
    added := s.added
    deleted := s.deleted
    total := s.added + s.deleted
    commits := 1 }

/-- State-passing rendering of the in-place mutation of the entry returned
by `ticketStatAccumulator.find(...)` (src/index.js lines 41–56): the first
entry whose ticket matches is replaced by its bumped version. -/
def updateFirst (s : ShortStat) (t : String) : List TicketStat → List TicketStat
  | [] => []
  | e :: rest =>
    if e.ticket == t then bump e s :: rest else e :: updateFirst s t rest

/-- Processing of a single extracted ticket mention (the `forEach` body,
src/index.js lines 40–66): find an existing entry for the ticket and bump
it, otherwise push a fresh entry at the end. -/
def addTicket (acc : List TicketStat) (s : ShortStat) (t : String) : List TicketStat :=
  match acc.find? (fun ts => ts.ticket == t) with
  | some _ => updateFirst s t acc
  | none => acc ++ [freshStat t s]

/-- Embedding of `commitReducer` (src/index.js lines 27–69): compute the
commit's short stat, extract every ticket mention from the message, and
fold each mention (duplicates included) into the accumulator. -/
def commitReducer (r : Regex) (acc : List TicketStat) (c : Commit) : List TicketStat :=
  let s := shortStatOf c
  (extractTickets r c.message).foldl (fun a t => addTicket a s t) acc

/-- Embedding of `analyzeCommits` (src/index.js lines 24–72):
`commits.reduce(commitReducer, [])`. -/
def analyzeCommits (commits : List Commit) (r : Regex) : List TicketStat :=
  commits.foldl (commitReducer r) []

/-- Lookup of the entry for ticket `t`, mirroring
`ticketStatAccumulator.find((ticketStat) => ticketStat.ticket === ticket)`. -/
def findTicket (t : String) (acc : List TicketStat) : Option TicketStat :=
  acc.find? (fun ts => ts.ticket == t)

example : extractTickets defaultTicketPattern "see TICKET-42" = ["TICKET-42"] := by decide

example : extractTickets customTicketPattern "see TICKET-42" = ["TICKET-42"] := by decide

example : extractTickets defaultTicketPattern "A-1 A-1" = ["A-1", "A-1"] := by decide

example : extractTickets defaultTicketPattern "nothing here" = [] := by decide

example :
    analyzeCommits
      [⟨"fix PROJ-1", [⟨5, 2⟩]⟩, ⟨"PROJ-1 and PROJ-2", [⟨1, 0⟩]⟩]
      defaultTicketPattern =
    [⟨"PROJ-1", 6, 2, 8, 2⟩, ⟨"PROJ-2", 1, 0, 1, 1⟩] := by decide

/-! ### Lookup lemmas for the accumulator operations -/

theorem bump_ticket (e : TicketStat) (s : ShortStat) : (bump e s).ticket = e.ticket := rfl

theorem find?_isSome_eq_any {α : Type} (p : α → Bool) (l : List α) :
    (l.find? p).isSome = l.any p := by
  induction l with
  | nil => rfl
  | cons x xs ih => cases hx : p x <;> simp [List.find?_cons, hx, ih]

theorem findTicket_updateFirst_self (s : ShortStat) (t : String) (acc : List TicketStat) :
    findTicket t (updateFirst s t acc) = (findTicket t acc).map (fun e => bump e s) := by
  induction acc with
  | nil => rfl
  | cons e rest ih =>
    cases he : (e.ticket == t) with
    | true => simp [updateFirst, findTicket, List.find?_cons, he, bump_ticket]
    | false =>
      simp only [updateFirst, he, Bool.false_eq_true, if_false, findTicket,
        List.find?_cons, Bool.false_eq_true] at ih ⊢
      exact ih

theorem findTicket_updateFirst_ne (s : ShortStat) {tk t : String} (h : tk ≠ t)
    (acc : List TicketStat) :
    findTicket t (updateFirst s tk acc) = findTicket t acc := by
  induction acc with
  | nil => rfl
  | cons e rest ih =>
    cases he : (e.ticket == tk) with
    | true =>
      have het : e.ticket = tk := by simpa using he
      have hnt : (e.ticket == t) = false := by
        simp [het, h]
      simp [updateFirst, he, findTicket, List.find?_cons, hnt, bump_ticket]
    | false =>
      simp only [updateFirst, he, Bool.false_eq_true, if_false, findTicket,
        List.find?_cons] at ih ⊢
      cases ht : (e.ticket == t) <;> simp [ht, ih]

theorem findTicket_addTicket_self (acc : List TicketStat) (s : ShortStat) (t : String) :
    findTicket t (addTicket acc s t) =
      some (match findTicket t acc with
            | some e => bump e s
            | none => freshStat t s) := by
  unfold addTicket
  cases h : acc.find? (fun ts => ts.ticket == t) with
  | some e =>
    have h' : findTicket t acc = some e := h
    rw [findTicket_updateFirst_self, h']
    rfl
  | none =>
    have h' : findTicket t acc = none := h
    rw [h']
    simp [findTicket, List.find?_append, h, freshStat, List.find?_cons]

theorem findTicket_addTicket_ne {tk t : String} (h : tk ≠ t)
    (acc : List TicketStat) (s : ShortStat) :
    findTicket t (addTicket acc s tk) = findTicket t acc := by
  unfold addTicket
  cases hf : acc.find? (fun ts => ts.ticket == tk) with
  | some e => exact findTicket_updateFirst_ne s h acc
  | none =>
    have hnt : ((freshStat tk s).ticket == t) = false := by
      simp [freshStat, h]
    simp [findTicket, List.find?_append, hnt, List.find?_cons]

/-! ### Characterization of processing a list of mentions -/

/-- Result of bumping an entry `n` times with the same short stat. -/
def bumpN (e : TicketStat) (s : ShortStat) (n : Nat) : TicketStat :=
  { e with
    added := e.added + n * s.added
    deleted := e.deleted + n * s.deleted
    total := e.total + n * (s.added + s.deleted)
    commits := e.commits + n }

/-- Result of a fresh entry sighted `n` times in total (`n ≥ 1`). -/
def freshN (t : String) (s : ShortStat) (n : Nat) : TicketStat :=
  { ticket := t
    added := n * s.added
    deleted := n * s.deleted
    total := n * (s.added + s.deleted)
    commits := n }

theorem bumpN_zero (e : TicketStat) (s : ShortStat) : bumpN e s 0 = e := by
  cases e
  simp [bumpN]

theorem bump_bumpN (e : TicketStat) (s : ShortStat) (n : Nat) :
    bumpN (bump e s) s n = bumpN e s (n + 1) := by
  cases e
  simp [bump, bumpN]
  refine ⟨by ring, by ring, by ring, by ring⟩

theorem fresh_bumpN (t : String) (s : ShortStat) (n : Nat) :
    bumpN (freshStat t s) s n = freshN t s (n + 1) := by
  simp [freshStat, bumpN, freshN]
  refine ⟨by ring, by ring, by ring, by ring⟩

theorem findTicket_foldl_addTicket (s : ShortStat) (ts : List String) :
    ∀ (acc : List TicketStat) (t : String),
      findTicket t (ts.foldl (fun a tk => addTicket a s tk) acc) =
        match findTicket t acc with
        | some e => some (bumpN e s (ts.count t))
        | none =>
          if ts.count t = 0 then none else some (freshN t s (ts.count t)) := by
  induction ts with
  | nil =>
    intro acc t
    cases h : findTicket t acc <;> simp [h, bumpN_zero]
  | cons tk ts ih =>
    intro acc t
    simp only [List.foldl_cons]
    rw [ih]
    by_cases htk : tk = t
    · subst htk
      rw [findTicket_addTicket_self]
      cases h : findTicket tk acc with
      | some e => simp [h, List.count_cons, bump_bumpN]
      | none => simp [h, List.count_cons, fresh_bumpN]
    · rw [findTicket_addTicket_ne htk]
      have hc : (tk :: ts).count t = ts.count t := by
        simp [List.count_cons, htk]
      cases h : findTicket t acc <;> simp [h, hc]

/-! ### Master characterization of the aggregation -/

/-- Number of mentions of ticket `t` extracted from commit `c`'s message. -/
def countMentions (r : Regex) (t : String) (c : Commit) : Nat :=
  (extractTickets r c.message).count t

/-- Total number of mentions of ticket `t` across a commit sequence. -/
def totalMentions (r : Regex) (t : String) (cs : List Commit) : Nat :=
  (cs.map (countMentions r t)).sum

/-- Mention-weighted sum of added lines for ticket `t`. -/
def weightedAdded (r : Regex) (t : String) (cs : List Commit) : Int :=
  (cs.map (fun c => (countMentions r t c : Int) * (shortStatOf c).added)).sum

/-- Mention-weighted sum of deleted lines for ticket `t`. -/
def weightedDeleted (r : Regex) (t : String) (cs : List Commit) : Int :=
  (cs.map (fun c => (countMentions r t c : Int) * (shortStatOf c).deleted)).sum

/-- Closed form of the entry the aggregation produces for ticket `t`. -/
def aggStat (r : Regex) (t : String) (cs : List Commit) : TicketStat :=
  { ticket := t
    added := weightedAdded r t cs
    deleted := weightedDeleted r t cs
    total := weightedAdded r t cs + weightedDeleted r t cs
    commits := (totalMentions r t cs : Int) }

theorem countMentions_of_totalMentions_zero {r : Regex} {t : String} {cs : List Commit}
    (h : totalMentions r t cs = 0) : ∀ c ∈ cs, countMentions r t c = 0 := by
  intro c hc
  have := List.sum_eq_zero_iff.mp h (countMentions r t c) (List.mem_map_of_mem _ hc)
  exact this

theorem weightedAdded_of_totalMentions_zero {r : Regex} {t : String} {cs : List Commit}
    (h : totalMentions r t cs = 0) : weightedAdded r t cs = 0 := by
  refine List.sum_eq_zero ?_
  intro x hx
  obtain ⟨c, hc, rfl⟩ := List.mem_map.mp hx
  rw [countMentions_of_totalMentions_zero h c hc]
  simp

theorem weightedDeleted_of_totalMentions_zero {r : Regex} {t : String} {cs : List Commit}
    (h : totalMentions r t cs = 0) : weightedDeleted r t cs = 0 := by
  refine List.sum_eq_zero ?_
  intro x hx
  obtain ⟨c, hc, rfl⟩ := List.mem_map.mp hx
  rw [countMentions_of_totalMentions_zero h c hc]
  simp

theorem totalMentions_append (r : Regex) (t : String) (cs : List Commit) (c : Commit) :
    totalMentions r t (cs ++ [c]) = totalMentions r t cs + countMentions r t c := by
  simp [totalMentions]

theorem weightedAdded_append (r : Regex) (t : String) (cs : List Commit) (c : Commit) :
    weightedAdded r t (cs ++ [c]) =
      weightedAdded r t cs + (countMentions r t c : Int) * (shortStatOf c).added := by
  simp [weightedAdded]

theorem weightedDeleted_append (r : Regex) (t : String) (cs : List Commit) (c : Commit) :
    weightedDeleted r t (cs ++ [c]) =
      weightedDeleted r t cs + (countMentions r t c : Int) * (shortStatOf c).deleted := by
  simp [weightedDeleted]

theorem findTicket_commitReducer (r : Regex) (acc : List TicketStat) (c : Commit)
    (t : String) :
    findTicket t (commitReducer r acc c) =
      match findTicket t acc with
      | some e => some (bumpN e (shortStatOf c) (countMentions r t c))
      | none =>
        if countMentions r t c = 0 then none
        else some (freshN t (shortStatOf c) (countMentions r t c)) :=
  findTicket_foldl_addTicket (shortStatOf c) (extractTickets r c.message) acc t

theorem analyzeCommits_append_singleton (r : Regex) (cs : List Commit) (c : Commit) :
    analyzeCommits (cs ++ [c]) r = commitReducer r (analyzeCommits cs r) c := by
  simp [analyzeCommits, List.foldl_append]

theorem findTicket_analyzeCommits (r : Regex) (cs : List Commit) (t : String) :
    findTicket t (analyzeCommits cs r) =
      if totalMentions r t cs = 0 then none else some (aggStat r t cs) := by
  induction cs using List.reverseRecOn with
  | nil => simp [analyzeCommits, totalMentions, findTicket]
  | append_singleton cs c ih =>
    rw [analyzeCommits_append_singleton, findTicket_commitReducer, ih]
    by_cases hm : totalMentions r t cs = 0
    · simp only [hm, if_true]
      by_cases hk : countMentions r t c = 0
      · simp [hk, totalMentions_append, hm]
      · have htot : totalMentions r t (cs ++ [c]) ≠ 0 := by
          rw [totalMentions_append, hm]
          simpa using hk
        simp only [hk, if_false, htot]
        have : freshN t (shortStatOf c) (countMentions r t c) = aggStat r t (cs ++ [c]) := by
          simp [freshN, aggStat, weightedAdded_append, weightedDeleted_append,
            totalMentions_append, hm, weightedAdded_of_totalMentions_zero hm,
            weightedDeleted_of_totalMentions_zero hm]
          ring
        rw [this]
    · have htot : totalMentions r t (cs ++ [c]) ≠ 0 := by
        rw [totalMentions_append]
        intro hz
        exact hm (Nat.eq_zero_of_add_eq_zero_right hz)
      simp only [hm, if_false, htot]
      have : bumpN (aggStat r t cs) (shortStatOf c) (countMentions r t c) =
          aggStat r t (cs ++ [c]) := by
        simp [bumpN, aggStat, weightedAdded_append, weightedDeleted_append,
          totalMentions_append]
        ring
      rw [this]

/-! ### Sum of totals across the accumulator -/

/-- Sum of the `total` field over all entries of the accumulator. -/
def sumTotal (acc : List TicketStat) : Int :=
  (acc.map TicketStat.total).sum

theorem sumTotal_updateFirst (s : ShortStat) (t : String) :
    ∀ acc : List TicketStat, (acc.find? (fun ts => ts.ticket == t)).isSome →
      sumTotal (updateFirst s t acc) = sumTotal acc + (s.added + s.deleted) := by
  intro acc
  induction acc with
  | nil => intro h; simp at h
  | cons e rest ih =>
    intro h
    cases he : (e.ticket == t) with
    | true =>
      simp only [updateFirst, he, if_true]
      simp [sumTotal, bump]
      ring
    | false =>
      have hrest : (rest.find? (fun ts => ts.ticket == t)).isSome := by
        rw [List.find?_cons, he] at h
        simpa using h
      simp only [updateFirst, he, Bool.false_eq_true, if_false]
      simp only [sumTotal, List.map_cons, List.sum_cons] at ih ⊢
      rw [ih hrest]
      ring

theorem sumTotal_addTicket (acc : List TicketStat) (s : ShortStat) (t : String) :
    sumTotal (addTicket acc s t) = sumTotal acc + (s.added + s.deleted) := by
  unfold addTicket
  cases h : acc.find? (fun ts => ts.ticket == t) with
  | some e => exact sumTotal_updateFirst s t acc (by simp [h])
  | none => simp [sumTotal, freshStat]

theorem sumTotal_foldl_addTicket (s : ShortStat) (ts : List String) :
    ∀ acc : List TicketStat,
      sumTotal (ts.foldl (fun a tk => addTicket a s tk) acc) =
        sumTotal acc + ts.length * (s.added + s.deleted) := by
  induction ts with
  | nil => intro acc; simp
  | cons tk ts ih =>
    intro acc
    simp only [List.foldl_cons]
    rw [ih (addTicket acc s tk), sumTotal_addTicket]
    simp only [List.length_cons]
    push_cast
    ring

theorem sumTotal_commitReducer (r : Regex) (acc : List TicketStat) (c : Commit) :
    sumTotal (commitReducer r acc c) =
      sumTotal acc +
        ((extractTickets r c.message).length : Int) *
          ((shortStatOf c).added + (shortStatOf c).deleted) :=
  sumTotal_foldl_addTicket (shortStatOf c) (extractTickets r c.message) acc

/-! ### Ticket fields of the accumulator, in first-sighting order -/

/-- One step of first-sighting accumulation over a stream of mentions:
a ticket already seen leaves the list unchanged, a new one is appended. -/
def seenFold (l : List String) (t : String) : List String :=
  if l.any (fun x => x == t) then l else l ++ [t]

/-- The distinct elements of a mention stream, in order of first sighting. -/
def firstSeen (ts : List String) : List String :=
  ts.foldl seenFold []

/-- Every ticket mention extracted from a commit sequence, commits in input
order and matches left to right within each message. -/
def allMentions (r : Regex) (cs : List Commit) : List String :=
  (cs.map (fun c => extractTickets r c.message)).flatten

theorem map_ticket_updateFirst (s : ShortStat) (t : String) :
    ∀ acc : List TicketStat,
      (updateFirst s t acc).map TicketStat.ticket = acc.map TicketStat.ticket := by
  intro acc
  induction acc with
  | nil => rfl
  | cons e rest ih =>
    cases he : (e.ticket == t) with
    | true => simp [updateFirst, he, bump_ticket]
    | false => simp [updateFirst, he, ih]

theorem any_map_ticket (acc : List TicketStat) (t : String) :
    (acc.map TicketStat.ticket).any (fun x => x == t) =
      acc.any (fun ts => ts.ticket == t) := by
  induction acc with
  | nil => rfl
  | cons e rest ih => simp only [List.map_cons, List.any_cons, ih]

theorem map_ticket_addTicket (acc : List TicketStat) (s : ShortStat) (t : String) :
    (addTicket acc s t).map TicketStat.ticket =
      seenFold (acc.map TicketStat.ticket) t := by
  unfold addTicket
  cases h : acc.find? (fun ts => ts.ticket == t) with
  | some e =>
    have hany : acc.any (fun ts => ts.ticket == t) = true := by
      have := find?_isSome_eq_any (fun ts : TicketStat => ts.ticket == t) acc
      rw [h] at this
      simpa using this.symm
    rw [map_ticket_updateFirst]
    simp [seenFold, any_map_ticket, hany]
  | none =>
    have hany : acc.any (fun ts => ts.ticket == t) = false := by
      have := find?_isSome_eq_any (fun ts : TicketStat => ts.ticket == t) acc
      rw [h] at this
      simpa using this.symm
    simp [seenFold, any_map_ticket, hany, freshStat]

theorem map_ticket_foldl_addTicket (s : ShortStat) (ts : List String) :
    ∀ acc : List TicketStat,
      (ts.foldl (fun a tk => addTicket a s tk) acc).map TicketStat.ticket =
        ts.foldl seenFold (acc.map TicketStat.ticket) := by
  induction ts with
  | nil => intro acc; rfl
  | cons tk ts ih =>
    intro acc
    simp only [List.foldl_cons]
    rw [ih (addTicket acc s tk), map_ticket_addTicket]

theorem map_ticket_commitReducer (r : Regex) (acc : List TicketStat) (c : Commit) :
    (commitReducer r acc c).map TicketStat.ticket =
      (extractTickets r c.message).foldl seenFold (acc.map TicketStat.ticket) :=
  map_ticket_foldl_addTicket (shortStatOf c) (extractTickets r c.message) acc

/-! ### Distinctness of ticket fields -/

theorem pairwise_addTicket {acc : List TicketStat} (s : ShortStat) (t : String)
    (h : List.Pairwise (fun a b : TicketStat => a.ticket ≠ b.ticket) acc) :
    List.Pairwise (fun a b : TicketStat => a.ticket ≠ b.ticket) (addTicket acc s t) := by
  have hmap : (acc.map TicketStat.ticket).Nodup := by
    rw [List.Nodup, List.pairwise_map]
    exact h
  have hres : ((addTicket acc s t).map TicketStat.ticket).Nodup := by
    rw [map_ticket_addTicket]
    unfold seenFold
    cases hany : (acc.map TicketStat.ticket).any (fun x => x == t) with
    | true => simpa [hany] using hmap
    | false =>
      have hmem : t ∉ acc.map TicketStat.ticket := by
        intro hm
        exact (List.any_eq_false.mp hany t hm) (by simp)
      have hdisj : (acc.map TicketStat.ticket).Disjoint [t] := by
        intro a ha hb
        have hat : a = t := by simpa using hb
        subst hat
        exact hmem ha
      simp only [hany, Bool.false_eq_true, if_false]
      exact hmap.append (List.nodup_singleton t) hdisj
  rw [List.Nodup, List.pairwise_map] at hres
  exact hres

theorem pairwise_foldl_addTicket (s : ShortStat) (ts : List String) :
    ∀ acc : List TicketStat,
      List.Pairwise (fun a b : TicketStat => a.ticket ≠ b.ticket) acc →
      List.Pairwise (fun a b : TicketStat => a.ticket ≠ b.ticket)
        (ts.foldl (fun a tk => addTicket a s tk) acc) := by
  induction ts with
  | nil => intro acc h; exact h
  | cons tk ts ih =>
    intro acc h
    simp only [List.foldl_cons]
    exact ih (addTicket acc s tk) (pairwise_addTicket s tk h)

theorem pairwise_commitReducer (r : Regex) {acc : List TicketStat} (c : Commit)
    (h : List.Pairwise (fun a b : TicketStat => a.ticket ≠ b.ticket) acc) :
    List.Pairwise (fun a b : TicketStat => a.ticket ≠ b.ticket) (commitReducer r acc c) :=
  pairwise_foldl_addTicket (shortStatOf c) (extractTickets r c.message) acc h

theorem pairwise_analyzeCommits (r : Regex) (cs : List Commit) :
    List.Pairwise (fun a b : TicketStat => a.ticket ≠ b.ticket) (analyzeCommits cs r) := by
  induction cs using List.reverseRecOn with
  | nil => simp [analyzeCommits]
  | append_singleton cs c ih =>
    rw [analyzeCommits_append_singleton]
    exact pairwise_commitReducer r c ih

/-! ### Absence of matches -/

theorem matchM_nil (r : Regex) : ∀ k, matchM r [] k = none := by
  induction r with
  | lit c => intro k; rfl
  | plus p => intro k; rfl
  | cat r1 r2 ih1 ih2 => intro k; exact ih1 _

theorem matchAllAux_eq_nil (r : Regex) :
    ∀ (fuel : Nat) (s : List Char),
      (∀ u, u <:+ s → matchM r u (fun x => some x) = none) →
      matchAllAux r fuel s = [] := by
  intro fuel
  induction fuel with
  | zero => intro s _; rfl
  | succ n ih =>
    intro s h
    have h0 : matchM r s (fun x => some x) = none := h s (List.suffix_refl s)
    cases s with
    | nil =>
      show (match matchM r [] (fun x => some x) with
            | some rest => List.take ([].length - rest.length) [] ::
                matchAllAux r n rest
            | none => match ([] : List Char) with
              | [] => []
              | _ :: t => matchAllAux r n t) = []
      rw [h0]
    | cons x t =>
      show (match matchM r (x :: t) (fun x => some x) with
            | some rest => List.take ((x :: t).length - rest.length) (x :: t) ::
                matchAllAux r n rest
            | none => match x :: t with
              | [] => []
              | _ :: t => matchAllAux r n t) = []
      rw [h0]
      exact ih t (fun u hu => h u (hu.trans (List.suffix_cons x t)))

theorem matchAll_eq_nil (r : Regex) (s : List Char)
    (h : ∀ u, u <:+ s → matchM r u (fun x => some x) = none) :
    matchAll r s = [] :=
  matchAllAux_eq_nil r (s.length + 1) s h

theorem extractTickets_eq_nil (r : Regex) (m : String)
    (h : ∀ u, u <:+ m.data → matchM r u (fun x => some x) = none) :
    extractTickets r m = [] := by
  unfold extractTickets
  rw [matchAll_eq_nil r m.data h]
  rfl

theorem matchM_suffix_none_of_drop {r : Regex} {s : List Char}
    (h : ∀ i < s.length + 1, matchM r (s.drop i) (fun x => some x) = none) :
    ∀ u, u <:+ s → matchM r u (fun x => some x) = none := by
  intro u hu
  obtain ⟨pre, hpre⟩ := hu
  have hdrop : s.drop pre.length = u := by
    rw [← hpre]
    exact List.drop_left pre u
  have hlen : pre.length < s.length + 1 := by
    have : pre.length ≤ s.length := by
      rw [← hpre, List.length_append]
      exact Nat.le_add_right _ _
    exact Nat.lt_succ_of_le this
  rw [← hdrop]
  exact h pre.length hlen

/-! ### Pointwise merge of two aggregation results -/

/-- Pointwise addition of two per-ticket stat tuples, following the
specification's description of merging partial per-ticket accumulators. -/
def mergeTicketStat (a b : TicketStat) : TicketStat :=
  { ticket := a.ticket
    added := a.added + b.added
    deleted := a.deleted + b.deleted
    total := a.total + b.total
    commits := a.commits + b.commits }

/-- Merge of two per-ticket collections, following the specification's
description: tickets present in both are added pointwise, tickets present
in only one collection are kept as they are. -/
def mergeStats (xs ys : List TicketStat) : List TicketStat :=
  xs.map (fun e =>
    match ys.find? (fun f => f.ticket == e.ticket) with
    | some f => mergeTicketStat e f
    | none => e)
  ++ ys.filter (fun f => !xs.any (fun e => e.ticket == f.ticket))

theorem find?_filter_of_imp {α : Type} (p q : α → Bool)
    (l : List α) (himp : ∀ x, p x = true → q x = true) :
    (l.filter q).find? p = l.find? p := by
  induction l with
  | nil => rfl
  | cons x xs ih =>
    cases hq : q x with
    | true =>
      cases hp : p x <;> simp [List.filter_cons, hq, List.find?_cons, hp, ih]
    | false =>
      have hp : p x = false := by
        cases hpx : p x
        · rfl
        · rw [himp x hpx] at hq
          exact absurd hq (by simp)
      simp [List.filter_cons, hq, List.find?_cons, hp, ih]

theorem findTicket_mergeStats (xs ys : List TicketStat) (t : String) :
    findTicket t (mergeStats xs ys) =
      match findTicket t xs, findTicket t ys with
      | some a, some b => some (mergeTicketStat a b)
      | some a, none => some a
      | none, some b => some b
      | none, none => none := by
  unfold mergeStats findTicket
  rw [List.find?_append, List.find?_map]
  have hpf : ((fun ts : TicketStat => ts.ticket == t) ∘
      (fun e : TicketStat =>
        match ys.find? (fun f => f.ticket == e.ticket) with
        | some f => mergeTicketStat e f
        | none => e)) = (fun e : TicketStat => e.ticket == t) := by
    funext e
    cases hf : ys.find? (fun f => f.ticket == e.ticket) <;>
      simp [Function.comp, hf, mergeTicketStat]
  rw [hpf]
  cases hx : xs.find? (fun ts => ts.ticket == t) with
  | some a =>
    have hat : a.ticket = t := by
      have hp := List.find?_some hx
      simpa using hp
    simp only [Option.map_some']
    rw [hat]
    cases hy : ys.find? (fun ts => ts.ticket == t) with
    | some b => rfl
    | none => rfl
  | none =>
    simp only [Option.map_none']
    have hany : xs.any (fun e => e.ticket == t) = false := by
      have hs := find?_isSome_eq_any (fun e : TicketStat => e.ticket == t) xs
      rw [hx] at hs
      simpa using hs.symm
    have himp : ∀ f' : TicketStat, (f'.ticket == t) = true →
        (!xs.any (fun e => e.ticket == f'.ticket)) = true := by
      intro f' hf'
      have hft : f'.ticket = t := by simpa using hf'
      rw [hft, hany]
      rfl
    rw [find?_filter_of_imp _ _ ys himp]
    cases hy : ys.find? (fun ts => ts.ticket == t) with
    | some b => rfl
    | none => rfl

/-! ### Preservation of the total invariant -/

theorem total_inv_updateFirst (s : ShortStat) (t : String) :
    ∀ acc : List TicketStat, (∀ e ∈ acc, e.total = e.added + e.deleted) →
      ∀ e ∈ updateFirst s t acc, e.total = e.added + e.deleted := by
  intro acc
  induction acc with
  | nil => intro _ e he; simp [updateFirst] at he
  | cons a rest ih =>
    intro h e he
    cases ha : (a.ticket == t) with
    | true =>
      simp only [updateFirst, ha, if_true] at he
      cases List.mem_cons.mp he with
      | inl hb =>
        subst hb
        have hat : a.total = a.added + a.deleted := h a (List.mem_cons_self a rest)
        simp [bump, hat]
        ring
      | inr hr => exact h e (List.mem_cons_of_mem a hr)
    | false =>
      simp only [updateFirst, ha, Bool.false_eq_true, if_false] at he
      cases List.mem_cons.mp he with
      | inl hb =>
        subst hb
        exact h e (List.mem_cons_self e rest)
      | inr hr =>
        exact ih (fun x hx => h x (List.mem_cons_of_mem a hx)) e hr

theorem total_inv_addTicket {acc : List TicketStat} (s : ShortStat) (t : String)
    (h : ∀ e ∈ acc, e.total = e.added + e.deleted) :
    ∀ e ∈ addTicket acc s t, e.total = e.added + e.deleted := by
  unfold addTicket
  cases hf : acc.find? (fun ts => ts.ticket == t) with
  | some a => exact total_inv_updateFirst s t acc h
  | none =>
    intro e he
    cases List.mem_append.mp he with
    | inl hl => exact h e hl
    | inr hr =>
      have : e = freshStat t s := by simpa using hr
      subst this
      rfl

theorem total_inv_foldl_addTicket (s : ShortStat) (ts : List String) :
    ∀ acc : List TicketStat, (∀ e ∈ acc, e.total = e.added + e.deleted) →
      ∀ e ∈ ts.foldl (fun a tk => addTicket a s tk) acc, e.total = e.added + e.deleted := by
  induction ts with
  | nil => intro acc h; exact h
  | cons tk ts ih =>
    intro acc h
    simp only [List.foldl_cons]
    exact ih (addTicket acc s tk) (total_inv_addTicket s tk h)

theorem total_inv_commitReducer (r : Regex) {acc : List TicketStat} (c : Commit)
    (h : ∀ e ∈ acc, e.total = e.added + e.deleted) :
    ∀ e ∈ commitReducer r acc c, e.total = e.added + e.deleted :=
  total_inv_foldl_addTicket (shortStatOf c) (extractTickets r c.message) acc h

theorem total_inv_analyzeCommits (r : Regex) (cs : List Commit) :
    ∀ e ∈ analyzeCommits cs r, e.total = e.added + e.deleted := by
  induction cs using List.reverseRecOn with
  | nil => intro e he; simp [analyzeCommits] at he
  | append_singleton cs c ih =>
    rw [analyzeCommits_append_singleton]
    exact total_inv_commitReducer r c ih

/-! ### Additivity over sequence concatenation -/

theorem totalMentions_app (r : Regex) (t : String) (cs1 cs2 : List Commit) :
    totalMentions r t (cs1 ++ cs2) = totalMentions r t cs1 + totalMentions r t cs2 := by
  simp [totalMentions]

theorem weightedAdded_app (r : Regex) (t : String) (cs1 cs2 : List Commit) :
    weightedAdded r t (cs1 ++ cs2) = weightedAdded r t cs1 + weightedAdded r t cs2 := by
  simp [weightedAdded]

theorem weightedDeleted_app (r : Regex) (t : String) (cs1 cs2 : List Commit) :
    weightedDeleted r t (cs1 ++ cs2) = weightedDeleted r t cs1 + weightedDeleted r t cs2 := by
  simp [weightedDeleted]

/-! ### Claim theorems -/

/-- C1: `aggregate` processes each commit's extracted mentions one by one,
duplicates included: a commit whose message mentions the same ticket twice
adds its short stat (added, deleted, and their sum into total) to that
ticket's entry twice and increments the entry's `commits` field by 2, the
entry being created with the doubled values when the ticket is new. -/
theorem claim1_duplicate_mentions_count_twice (r : Regex) (cs : List Commit)
    (c : Commit) (t : String) (hext : extractTickets r c.message = [t, t]) :
    (∀ e, findTicket t (analyzeCommits cs r) = some e →
      findTicket t (analyzeCommits (cs ++ [c]) r) =
        some { e with
          added := e.added + 2 * (shortStatOf c).added
          deleted := e.deleted + 2 * (shortStatOf c).deleted
          total := e.total + 2 * ((shortStatOf c).added + (shortStatOf c).deleted)
          commits := e.commits + 2 }) ∧
    (findTicket t (analyzeCommits cs r) = none →
      findTicket t (analyzeCommits (cs ++ [c]) r) =
        some { ticket := t
               added := 2 * (shortStatOf c).added
               deleted := 2 * (shortStatOf c).deleted
               total := 2 * ((shortStatOf c).added + (shortStatOf c).deleted)
               commits := 2 }) := by
  have hcnt : countMentions r t c = 2 := by
    unfold countMentions
    rw [hext]
    simp [List.count_cons]
  constructor
  · intro e he
    rw [analyzeCommits_append_singleton, findTicket_commitReducer, he, hcnt]
    have h2 : ((2 : Nat) : Int) = 2 := by norm_num
    simp only [bumpN, h2]
  · intro he
    rw [analyzeCommits_append_singleton, findTicket_commitReducer, he, hcnt]
    simp [freshN]

/-- C1 witness at a concrete input: the commit message `A-1 A-1` mentions
`A-1` twice, and starting from the empty history the resulting entry
carries the commit's short stat twice and `commits = 2`. -/
theorem claim1_duplicate_mentions_count_twice_witness :
    findTicket "A-1"
      (analyzeCommits ([] ++ [⟨"A-1 A-1", [⟨3, 4⟩]⟩]) defaultTicketPattern) =
      some { ticket := "A-1"
             added := 2 * (shortStatOf ⟨"A-1 A-1", [⟨3, 4⟩]⟩).added
             deleted := 2 * (shortStatOf ⟨"A-1 A-1", [⟨3, 4⟩]⟩).deleted
             total := 2 * ((shortStatOf ⟨"A-1 A-1", [⟨3, 4⟩]⟩).added +
               (shortStatOf ⟨"A-1 A-1", [⟨3, 4⟩]⟩).deleted)
             commits := 2 } :=
  (claim1_duplicate_mentions_count_twice defaultTicketPattern []
    ⟨"A-1 A-1", [⟨3, 4⟩]⟩ "A-1" (by decide)).2 (by decide)

/-- Number of distinct input commits whose message mentions ticket `t`, the
quantity the specification says `commits` counts. -/
def commitsMentioning (r : Regex) (t : String) (cs : List Commit) : Nat :=
  (cs.filter (fun c => (extractTickets r c.message).any (fun x => x == t))).length

/-- C2 counterexample: a single commit whose message mentions `A-1` twice
yields an entry with `commits = 2`, although only one distinct commit
mentions `A-1`; `commits` therefore does not count distinct commits. -/
theorem claim2_counterexample :
    (findTicket "A-1"
      (analyzeCommits [⟨"A-1 A-1", [⟨3, 4⟩]⟩] defaultTicketPattern)).map
        TicketStat.commits = some 2 ∧
    commitsMentioning defaultTicketPattern "A-1" [⟨"A-1 A-1", [⟨3, 4⟩]⟩] = 1 ∧
    (2 : Int) ≠ ((1 : Nat) : Int) := by decide

/-- C2 amended: in the result of `aggregate`, each entry's `commits` field
equals the total number of mentions of that ticket identifier across all
messages, not the number of distinct commits mentioning it. -/
theorem claim2_commits_counts_mentions (r : Regex) (cs : List Commit) (t : String)
    (e : TicketStat) (h : findTicket t (analyzeCommits cs r) = some e) :
    e.commits = (totalMentions r t cs : Int) := by
  rw [findTicket_analyzeCommits] at h
  by_cases hm : totalMentions r t cs = 0
  · simp [hm] at h
  · simp only [hm, if_false] at h
    have he : aggStat r t cs = e := Option.some.inj h
    rw [← he]
    rfl

/-- C2 witness at a concrete input: the entry for `A-1` produced by the
duplicate-mention commit has `commits` equal to its total mention count. -/
theorem claim2_commits_counts_mentions_witness :
    (⟨"A-1", 6, 8, 14, 2⟩ : TicketStat).commits =
      (totalMentions defaultTicketPattern "A-1" [⟨"A-1 A-1", [⟨3, 4⟩]⟩] : Int) :=
  claim2_commits_counts_mentions defaultTicketPattern [⟨"A-1 A-1", [⟨3, 4⟩]⟩] "A-1"
    ⟨"A-1", 6, 8, 14, 2⟩ (by decide)

/-- C3: the invariant `total = added + deleted` holds for every entry of
the accumulator: it is preserved by each commit step of the fold (hence at
every intermediate state) and holds in the final result of `aggregate`. -/
theorem claim3_total_invariant (r : Regex) (acc : List TicketStat) (c : Commit)
    (cs : List Commit)
    (hacc : ∀ e ∈ acc, e.total = e.added + e.deleted) :
    (∀ e ∈ commitReducer r acc c, e.total = e.added + e.deleted) ∧
    (∀ e ∈ analyzeCommits cs r, e.total = e.added + e.deleted) :=
  ⟨total_inv_commitReducer r c hacc, total_inv_analyzeCommits r cs⟩

/-- C3 witness at a concrete input: the entry produced for `A-1` satisfies
`total = added + deleted`. -/
theorem claim3_total_invariant_witness :
    (⟨"A-1", 3, 4, 7, 1⟩ : TicketStat).total =
      (⟨"A-1", 3, 4, 7, 1⟩ : TicketStat).added +
        (⟨"A-1", 3, 4, 7, 1⟩ : TicketStat).deleted :=
  (claim3_total_invariant defaultTicketPattern [] ⟨"A-1", [⟨3, 4⟩]⟩
    [⟨"A-1", [⟨3, 4⟩]⟩] (by simp)).2 ⟨"A-1", 3, 4, 7, 1⟩ (by decide)

/-- C5: the sum of `total` over all entries returned by `aggregate` equals
the sum over all input commits of the number of extracted ticket mentions
times that commit's summed added + deleted. -/
theorem claim5_sum_of_totals (r : Regex) (cs : List Commit) :
    sumTotal (analyzeCommits cs r) =
      (cs.map (fun c => ((extractTickets r c.message).length : Int) *
        ((shortStatOf c).added + (shortStatOf c).deleted))).sum := by
  induction cs using List.reverseRecOn with
  | nil => rfl
  | append_singleton cs c ih =>
    rw [analyzeCommits_append_singleton, sumTotal_commitReducer, ih]
    simp [List.map_append]

/-- C6 counterexample: the default pattern `[A-Z]+-\d+` does match the
message `see TICKET-42` (the identifier `TICKET-42` consists of uppercase
letters, a hyphen and digits), contradicting the claim that it yields no
match. -/
theorem claim6_counterexample :
    extractTickets defaultTicketPattern "see TICKET-42" = ["TICKET-42"] := by decide

/-- C6 amended: the pattern `TICKET-\d+` applied to `see TICKET-42` yields
a match, and the default pattern applied to the same message also yields a
match, namely the same identifier `TICKET-42`. -/
theorem claim6_custom_and_default_both_match :
    extractTickets customTicketPattern "see TICKET-42" = ["TICKET-42"] ∧
    extractTickets defaultTicketPattern "see TICKET-42" = ["TICKET-42"] := by decide

/-- C7: when the pattern matches at no position of the message — in
particular for the empty message, which satisfies the hypothesis vacuously
since no regex of the fragment matches the empty string — extraction
returns the empty sequence, and processing such a commit leaves the
accumulator exactly unchanged: no entry is updated and none is created. -/
theorem claim7_no_match_no_effect (r : Regex) (acc : List TicketStat) (c : Commit)
    (h : ∀ i < c.message.data.length + 1,
      matchM r (c.message.data.drop i) (fun x => some x) = none) :
    extractTickets r c.message = [] ∧
    commitReducer r acc c = acc ∧
    extractTickets r "" = [] := by
  have hsuf := matchM_suffix_none_of_drop h
  have hext : extractTickets r c.message = [] := extractTickets_eq_nil r c.message hsuf
  refine ⟨hext, ?_, ?_⟩
  · unfold commitReducer
    rw [hext]
    rfl
  · refine extractTickets_eq_nil r "" ?_
    intro u hu
    have hu0 : u <:+ ([] : List Char) := hu
    obtain rfl := List.suffix_nil.mp hu0
    exact matchM_nil r _

/-- C7 witness at a concrete input: the message `no tickets here` has no
match for the default pattern, so extraction is empty and the accumulator
passes through the commit unchanged. -/
theorem claim7_no_match_no_effect_witness :
    extractTickets defaultTicketPattern "no tickets here" = [] ∧
    commitReducer defaultTicketPattern [⟨"A-1", 1, 1, 2, 1⟩]
      ⟨"no tickets here", [⟨5, 6⟩]⟩ = [⟨"A-1", 1, 1, 2, 1⟩] ∧
    extractTickets defaultTicketPattern "" = [] :=
  claim7_no_match_no_effect defaultTicketPattern [⟨"A-1", 1, 1, 2, 1⟩]
    ⟨"no tickets here", [⟨5, 6⟩]⟩ (by decide)

/-- C4: splitting a commit sequence into two contiguous parts, aggregating
each with the same pattern, and merging the two per-ticket collections by
pointwise addition of the stat tuples (tickets present in only one part
kept as they are) yields the same mapping from ticket identifier to
statistics as aggregating the whole sequence. -/
theorem claim4_split_aggregate_merge (r : Regex) (cs1 cs2 : List Commit) (t : String) :
    findTicket t (mergeStats (analyzeCommits cs1 r) (analyzeCommits cs2 r)) =
      findTicket t (analyzeCommits (cs1 ++ cs2) r) := by
  rw [findTicket_mergeStats, findTicket_analyzeCommits, findTicket_analyzeCommits,
    findTicket_analyzeCommits]
  by_cases h1 : totalMentions r t cs1 = 0 <;> by_cases h2 : totalMentions r t cs2 = 0
  · have htot : totalMentions r t (cs1 ++ cs2) = 0 := by
      rw [totalMentions_app, h1, h2]
    simp [h1, h2, htot]
  · have htot : totalMentions r t (cs1 ++ cs2) = totalMentions r t cs2 := by
      rw [totalMentions_app, h1, Nat.zero_add]
    have hagg : aggStat r t (cs1 ++ cs2) = aggStat r t cs2 := by
      unfold aggStat
      rw [weightedAdded_app, weightedDeleted_app, htot,
        weightedAdded_of_totalMentions_zero h1, weightedDeleted_of_totalMentions_zero h1,
        Int.zero_add, Int.zero_add]
    have htot2 : totalMentions r t (cs1 ++ cs2) ≠ 0 := by rw [htot]; exact h2
    simp [h1, h2, htot2, hagg]
  · have htot : totalMentions r t (cs1 ++ cs2) = totalMentions r t cs1 := by
      rw [totalMentions_app, h2, Nat.add_zero]
    have hagg : aggStat r t (cs1 ++ cs2) = aggStat r t cs1 := by
      unfold aggStat
      rw [weightedAdded_app, weightedDeleted_app, htot,
        weightedAdded_of_totalMentions_zero h2, weightedDeleted_of_totalMentions_zero h2,
        Int.add_zero, Int.add_zero]
    have htot2 : totalMentions r t (cs1 ++ cs2) ≠ 0 := by rw [htot]; exact h1
    simp [h1, h2, htot2, hagg]
  · have htot2 : totalMentions r t (cs1 ++ cs2) ≠ 0 := by
      rw [totalMentions_app]
      intro hz
      exact h1 (Nat.eq_zero_of_add_eq_zero_right hz)
    have hagg : mergeTicketStat (aggStat r t cs1) (aggStat r t cs2) =
        aggStat r t (cs1 ++ cs2) := by
      unfold mergeTicketStat aggStat
      simp only [totalMentions_app, weightedAdded_app, weightedDeleted_app,
        TicketStat.mk.injEq, true_and, and_true]
      push_cast
      exact ⟨by ring, rfl⟩
    simp [h1, h2, htot2, hagg]

/-- C8: the accumulator never holds two entries with the same ticket
identifier: distinctness is preserved by every single mention step (hence
at every intermediate state of the fold), and the final result of
`aggregate` has pairwise distinct ticket fields. -/
theorem claim8_distinct_tickets (r : Regex) (acc : List TicketStat) (s : ShortStat)
    (t : String) (cs : List Commit)
    (h : List.Pairwise (fun a b : TicketStat => a.ticket ≠ b.ticket) acc) :
    List.Pairwise (fun a b : TicketStat => a.ticket ≠ b.ticket) (addTicket acc s t) ∧
    List.Pairwise (fun a b : TicketStat => a.ticket ≠ b.ticket) (analyzeCommits cs r) :=
  ⟨pairwise_addTicket s t h, pairwise_analyzeCommits r cs⟩

/-- C8 witness at a concrete input: adding a mention of `A-1` to an
accumulator holding `B-2` keeps ticket fields distinct, and aggregating a
two-ticket commit produces distinct ticket fields. -/
theorem claim8_distinct_tickets_witness :
    List.Pairwise (fun a b : TicketStat => a.ticket ≠ b.ticket)
      (addTicket [⟨"B-2", 1, 0, 1, 1⟩] ⟨3, 4⟩ "A-1") ∧
    List.Pairwise (fun a b : TicketStat => a.ticket ≠ b.ticket)
      (analyzeCommits [⟨"A-1 B-2", [⟨1, 2⟩]⟩] defaultTicketPattern) :=
  claim8_distinct_tickets defaultTicketPattern [⟨"B-2", 1, 0, 1, 1⟩] ⟨3, 4⟩ "A-1"
    [⟨"A-1 B-2", [⟨1, 2⟩]⟩] (by decide)

/-- C9: the result of `aggregate` lists its entries in first-sighting
order: the sequence of ticket fields equals the deduplication, keeping
first occurrences, of the stream of all mentions taken commit by commit in
input order and left to right within each message. -/
theorem claim9_first_sighting_order (r : Regex) (cs : List Commit) :
    (analyzeCommits cs r).map TicketStat.ticket = firstSeen (allMentions r cs) := by
  induction cs using List.reverseRecOn with
  | nil => rfl
  | append_singleton cs c ih =>
    rw [analyzeCommits_append_singleton, map_ticket_commitReducer, ih]
    unfold firstSeen allMentions
    rw [List.map_append, List.flatten_append]
    simp [List.foldl_append]
